import Mathlib

/-!
Verification of the webmux client-session gateway specification against the
Rust sources under src/backend-rust.  Each component the claims touch is
embedded shallowly: pure Rust functions become Lean functions over lists of
bytes, characters or a small JSON model, and the relevant theorems are
stated and proved about those definitions.
-/

namespace Webmux

/-- One byte, written as a natural number below 256. -/
abbrev Byte := Nat

/-!
## UTF-8 validation

str::from_utf8 and simdutf8::basic::from_utf8 accept exactly the same
byte sequences; both are modelled by the functions below.  The validation
table restricts continuation ranges for lead bytes 0xE0, 0xED, 0xF0 and
0xF4, so overlong encodings and surrogates are rejected, exactly as in the
Rust standard library.
-/

/-- Byte length of the maximal valid UTF-8 prefix of the list: the
valid_up_to value of the error returned by str::from_utf8, and the full
length when the whole list is valid. -/
def utf8ValidUpTo : List Byte → Nat
  | [] => 0
  | b :: rest =>
    if b < 0x80 then 1 + utf8ValidUpTo rest
    else if 0xC2 ≤ b ∧ b ≤ 0xDF then
      match rest with
      | c1 :: rest2 =>
        if 0x80 ≤ c1 ∧ c1 ≤ 0xBF then 2 + utf8ValidUpTo rest2 else 0
      | [] => 0
    else if 0xE0 ≤ b ∧ b ≤ 0xEF then
      match rest with
      | c1 :: c2 :: rest3 =>
        if ((if b = 0xE0 then 0xA0 else 0x80) ≤ c1 ∧
            c1 ≤ (if b = 0xED then 0x9F else 0xBF)) ∧
           (0x80 ≤ c2 ∧ c2 ≤ 0xBF) then 3 + utf8ValidUpTo rest3 else 0
      | _ => 0
    else if 0xF0 ≤ b ∧ b ≤ 0xF4 then
      match rest with
      | c1 :: c2 :: c3 :: rest4 =>
        if ((if b = 0xF0 then 0x90 else 0x80) ≤ c1 ∧
            c1 ≤ (if b = 0xF4 then 0x8F else 0xBF)) ∧
           (0x80 ≤ c2 ∧ c2 ≤ 0xBF) ∧ (0x80 ≤ c3 ∧ c3 ≤ 0xBF) then
          4 + utf8ValidUpTo rest4
        else 0
      | _ => 0
    else 0

/-- Whether a byte list is entirely valid UTF-8. -/
def utf8Valid (bs : List Byte) : Bool := utf8ValidUpTo bs == bs.length

/-- Standard UTF-8 encoding of one character, by scalar value range. -/
def encodeChar (c : Char) : List Byte :=
  let n := c.toNat
  if n < 0x80 then [n]
  else if n < 0x800 then [0xC0 + n / 0x40, 0x80 + n % 0x40]
  else if n < 0x10000 then
    [0xE0 + n / 0x1000, 0x80 + (n / 0x40) % 0x40, 0x80 + n % 0x40]
  else
    [0xF0 + n / 0x40000, 0x80 + (n / 0x1000) % 0x40,
     0x80 + (n / 0x40) % 0x40, 0x80 + n % 0x40]

/-- UTF-8 encoding of a string: the byte sequence Rust stores for it. -/
def utf8Encode (s : String) : List Byte :=
  s.data.foldr (fun c acc => encodeChar c ++ acc) []

/-- The notion of carryover the spec allows the decoder to retain: a proper
prefix of a single multi-byte UTF-8 code unit sequence that still awaits
continuation bytes (at most 3 bytes, head bits consistent with a lead byte). -/
def isIncompleteHead : List Byte → Bool
  | [b] =>
    decide ((0xC2 ≤ b ∧ b ≤ 0xDF) ∨ (0xE0 ≤ b ∧ b ≤ 0xEF) ∨
      (0xF0 ≤ b ∧ b ≤ 0xF4))
  | [b, c1] =>
    decide ((0xE0 ≤ b ∧ b ≤ 0xEF ∧
        (if b = 0xE0 then 0xA0 else 0x80) ≤ c1 ∧
        c1 ≤ (if b = 0xED then 0x9F else 0xBF)) ∨
      (0xF0 ≤ b ∧ b ≤ 0xF4 ∧
        (if b = 0xF0 then 0x90 else 0x80) ≤ c1 ∧
        c1 ≤ (if b = 0xF4 then 0x8F else 0xBF)))
  | [b, c1, c2] =>
    decide (0xF0 ≤ b ∧ b ≤ 0xF4 ∧
      (if b = 0xF0 then 0x90 else 0x80) ≤ c1 ∧
      c1 ≤ (if b = 0xF4 then 0x8F else 0xBF) ∧
      0x80 ≤ c2 ∧ c2 ≤ 0xBF)
  | _ => false

/-!
## Utf8StreamDecoder (src/backend-rust/src/terminal_buffer.rs)

decode_chunk is modelled byte for byte.  The decoder state is the
incomplete carryover buffer.  The Rust method pushes validated text slices
onto a String and returns (text, processed); since every pushed slice is
valid UTF-8, the text output is modelled as its byte sequence.  The result
triple is (output bytes, processed, new carryover).
-/

def decodeChunk (incomplete : List Byte) (input : List Byte) :
    List Byte × Nat × List Byte :=
  -- phase 1: handle incomplete bytes from the previous chunk
  let p1 : List Byte × Nat × List Byte :=
    if incomplete = [] then ([], 0, incomplete)
    else
      let combined := incomplete ++ input.take 4
      let v := utf8ValidUpTo combined
      if v = combined.length then
        -- from_utf8 succeeded on the combined buffer
        (combined, combined.length - incomplete.length, [])
      else if 0 < v then
        -- error with a nonzero valid prefix: emit it, clear the carryover;
        -- processed = valid_up_to.saturating_sub(incomplete.len())
        (combined.take v, v - incomplete.length, [])
      else
        -- valid_up_to = 0: the Rust code does nothing here, keeping the
        -- old carryover and leaving processed at 0
        ([], 0, incomplete)
  let result := p1.1
  let processed := p1.2.1
  let inc1 := p1.2.2
  -- phase 2: process the main input from the processed offset
  let remaining := input.drop processed
  let v2 := utf8ValidUpTo remaining
  if v2 = remaining.length then
    (result ++ remaining, input.length, inc1)
  else
    let pushed := result ++ remaining.take v2
    let start := processed + v2
    if start < input.length then
      -- incomplete.clear(); incomplete.extend_from_slice(&input[start..])
      (pushed, input.length, input.drop start)
    else
      (pushed, input.length, inc1)

/-- Feed a list of chunks to the decoder in order, starting from the given
carryover; returns the concatenation of the text outputs (as bytes) and the
final carryover. -/
def decodeChunks (incomplete : List Byte) : List (List Byte) → List Byte × List Byte
  | [] => ([], incomplete)
  | c :: cs =>
    let r := decodeChunk incomplete c
    let rest := decodeChunks r.2.2 cs
    (r.1 ++ rest.1, rest.2)

/-!
## Rust string primitives used by the chat-log parsers

Rust strings are UTF-8; str::len counts bytes, and a range slice
s[..n] panics when n is not a character boundary.  Byte lengths are
computed from the characters of the string, and the fallible slice is
modelled by takeBytes, which returns none exactly when the requested byte
count falls strictly inside a character.
-/

/-- Rust str::len: the UTF-8 byte length of a string. -/
def byteLen (s : String) : Nat := s.data.foldl (fun n c => n + c.utf8Size) 0

/-- Rust byte slice s[..n] on the character list of a string: some prefix
when n lands on a character boundary, none when it falls strictly inside a
character or past the end of the string (the panic cases of a Rust range
slice). -/
def takeBytes : List Char → Nat → Option (List Char)
  | _, 0 => some []
  | [], _ + 1 => none
  | c :: cs, n + 1 =>
    if c.utf8Size ≤ n + 1 then
      (takeBytes cs (n + 1 - c.utf8Size)).map (c :: ·)
    else none

/-- codex_parser::truncate: returns s unchanged when its byte length is at
most max, otherwise the first max bytes followed by "...".  The result is
none exactly when the byte slice s[..max] panics in Rust because max is not
a character boundary of s. -/
def truncate (s : String) (max : Nat) : Option String :=
  if byteLen s ≤ max then some s
  else (takeBytes s.data max).map (fun cs => String.mk cs ++ "...")

/-- Rust str::lines().count(): lines are terminated by LF (or CRLF, which
contains the same LF), and a final segment without a terminator still
counts as a line, while a final empty segment after a trailing LF does
not.  CR handling only changes the text of a segment, never the count, so
the count is modelled directly: every LF closes a line, and one more line
is counted when the data is nonempty and does not end in LF. -/
def rustLinesCount : List Char → Nat
  | [] => 0
  | [_] => 1
  | c :: rest => (if c = Char.ofNat 10 then 1 else 0) + rustLinesCount rest

/-- The count used by both result summarisers: text.lines().count(). -/
def linesCount (s : String) : Nat := rustLinesCount s.data

/-- Modelled from the spec: the number of LF-separated segments of a
string, the reading of the spec sentence that defines the word lines:
splitting on every LF gives one segment more than there are LF bytes. -/
def lfSegments (s : String) : Nat := s.data.count (Char.ofNat 10) + 1

/-- claude_parser::generate_result_summary.  none models the panic of the
byte slice in the single-line branch. -/
def generate_result_summary (content : Option String) : Option String :=
  match content with
  | none => some "(empty)"
  | some text =>
    if linesCount text > 1 then some (toString (linesCount text) ++ " lines")
    else if byteLen text > 120 then
      (takeBytes text.data 120).map (fun cs => String.mk cs ++ "...")
    else some text

/-- codex_parser::summarize_output. -/
def summarize_output (text : String) : Option String :=
  if linesCount text > 1 then some (toString (linesCount text) ++ " lines")
  else truncate text 120

/-!
## JSON values

serde_json::Value is modelled by the Json inductive below.  Numbers are
modelled as integers (no chat-log claim inspects a float), and object
fields keep their textual order; lookup returns the first match, which
agrees with serde_json on the well-formed logs the claims quantify over
(duplicate keys never arise there).  The textual JSON parsing step
performed by serde_json::from_str is outside the model: a parser input is
an Option Json in which none stands for a blank or malformed line.
-/

inductive Json where
  | null
  | bool (b : Bool)
  | num (n : Int)
  | str (s : String)
  | arr (items : List Json)
  | obj (fields : List (String × Json))
deriving Repr

/-- serde_json::Value::get with a string key: object lookup, none on any
other value. -/
def Json.get : Json → String → Option Json
  | .obj fields, key => fields.lookup key
  | _, _ => none

/-- serde_json::Value::as_str. -/
def Json.asStr : Json → Option String
  | .str s => some s
  | _ => none

/-- Lowercase hexadecimal digit, for JSON control-character escapes. -/
def hexDigit (n : Nat) : Char :=
  if n < 10 then Char.ofNat (48 + n) else Char.ofNat (87 + n)

/-- serde_json string escaping for one character. -/
def escapeJsonChar (c : Char) : List Char :=
  if c = Char.ofNat 34 then [Char.ofNat 92, Char.ofNat 34]
  else if c = Char.ofNat 92 then [Char.ofNat 92, Char.ofNat 92]
  else if c.toNat = 8 then [Char.ofNat 92, 'b']
  else if c.toNat = 9 then [Char.ofNat 92, 't']
  else if c.toNat = 10 then [Char.ofNat 92, 'n']
  else if c.toNat = 12 then [Char.ofNat 92, 'f']
  else if c.toNat = 13 then [Char.ofNat 92, 'r']
  else if c.toNat < 0x20 then
    [Char.ofNat 92, 'u', '0', '0', hexDigit (c.toNat / 16), hexDigit (c.toNat % 16)]
  else [c]

/-- serde_json compact rendering of a string literal, quotes included. -/
def jsonStringLit (s : String) : List Char :=
  Char.ofNat 34 :: (s.data.foldr (fun c acc => escapeJsonChar c ++ acc) [Char.ofNat 34])

/-!
serde_json::Value::to_string: the compact serialization used when the
Claude parser normalizes a structured tool_result content to a string.
-/

mutual

/-- Compact serialization of one JSON value. -/
def Json.serialize : Json → List Char
  | .null => "null".data
  | .bool true => "true".data
  | .bool false => "false".data
  | .num n => (toString n).data
  | .str s => jsonStringLit s
  | .arr items => '[' :: Json.serializeItems items ++ [']']
  | .obj fields => Char.ofNat 123 :: Json.serializeFields fields ++ [Char.ofNat 125]

def Json.serializeItems : List Json → List Char
  | [] => []
  | [v] => v.serialize
  | v :: rest => v.serialize ++ ',' :: Json.serializeItems rest

def Json.serializeFields : List (String × Json) → List Char
  | [] => []
  | [(k, v)] => jsonStringLit k ++ ':' :: v.serialize
  | (k, v) :: rest => jsonStringLit k ++ ':' :: v.serialize ++ ',' :: Json.serializeFields rest

end

/-- serde_json::Value::to_string as a String. -/
def Json.toStringCompact (j : Json) : String := String.mk j.serialize

/-!
## serde field helpers

Deserialization errors are modelled as none; both parsers turn a serde
error into a dropped line.
-/

/-- A required String field of a struct: present and a JSON string, or a
deserialization error. -/
def reqStrField (j : Json) (key : String) : Option String :=
  (j.get key).bind Json.asStr

/-- An Option String field: absent or null is none, a string is some, and
any other value is a deserialization error. -/
def optStrField (j : Json) (key : String) : Option (Option String) :=
  match j.get key with
  | none => some none
  | some .null => some none
  | some (.str s) => some (some s)
  | some _ => none

/-- An Option serde_json::Value field: absent or null is none, anything
else is kept verbatim. -/
def optValField (j : Json) (key : String) : Option (Option Json) :=
  match j.get key with
  | none => some none
  | some .null => some none
  | some v => some (some v)

/-!
## Normalized chat messages (src/backend-rust/src/chat_log/mod.rs)
-/

inductive ContentBlock where
  | text (text : String)
  | toolCall (name : String) (summary : String) (input : Option Json)
  | toolResult (tool_name : String) (summary : String) (content : Option String)
deriving Repr

/-- Normalized chat message.  The chrono timestamp is modelled as the raw
timestamp string: no claim inspects the parsed instant, only its presence. -/
structure ChatMessage where
  role : String
  timestamp : Option String
  blocks : List ContentBlock
deriving Repr

/-- Lift the panicking byte-slice primitives into the parser pipelines:
a none result of truncate or generate_result_summary is a Rust panic, which
the Except layer keeps distinct from an ordinarily dropped line. -/
def orPanic : Option α → Except String α
  | some a => .ok a
  | none => .error "byte index 120 is not a char boundary"

/-!
## Claude dialect (src/backend-rust/src/chat_log/claude_parser.rs)

The raw JSONL shapes and the conversion pipeline are translated
definition for definition.  The chrono timestamp parse is abstracted: any
JSON string is accepted as a timestamp (a string chrono rejects would drop
the whole line in Rust; no claim depends on that refinement).
-/

namespace ClaudeLog

/-- Raw tool_result content: a plain string or any other structured value. -/
inductive RawToolResultContent where
  | text (s : String)
  | other (v : Json)
deriving Repr

structure RawBlock where
  block_type : String
  text : Option String
  name : Option String
  input : Option Json
  tool_use_id : Option String
  content : Option RawToolResultContent
deriving Repr

inductive RawContent where
  | text (s : String)
  | blocks (bs : List RawBlock)
deriving Repr

structure RawMessage where
  role : String
  content : RawContent
deriving Repr

structure RawLine where
  line_type : String
  timestamp : Option String
  message : Option RawMessage
deriving Repr

/-- Option RawToolResultContent field, untagged: a string becomes Text,
anything else becomes Other. -/
def optResultContentField (j : Json) (key : String) :
    Option (Option RawToolResultContent) :=
  match j.get key with
  | none => some none
  | some .null => some none
  | some (.str s) => some (some (.text s))
  | some v => some (some (.other v))

def deserRawBlock (j : Json) : Option RawBlock := do
  let bt ← reqStrField j "type"
  let tx ← optStrField j "text"
  let nm ← optStrField j "name"
  let inp ← optValField j "input"
  let tid ← optStrField j "tool_use_id"
  let ct ← optResultContentField j "content"
  pure ⟨bt, tx, nm, inp, tid, ct⟩

/-- Untagged RawContent: a JSON string is the Text form, an array of valid
blocks is the Blocks form, anything else is a deserialization error. -/
def deserRawContent : Json → Option RawContent
  | .str s => some (.text s)
  | .arr items => (items.mapM deserRawBlock).map .blocks
  | _ => none

def deserRawMessage (j : Json) : Option RawMessage := do
  let role ← reqStrField j "role"
  let cj ← j.get "content"
  let c ← deserRawContent cj
  pure ⟨role, c⟩

def deserRawLine (j : Json) : Option RawLine := do
  let lt ← reqStrField j "type"
  let ts ← optStrField j "timestamp"
  let msg ←
    match j.get "message" with
    | none => some none
    | some .null => some none
    | some mj => (deserRawMessage mj).map some
  pure ⟨lt, ts, msg⟩

/-- claude_parser::generate_tool_summary. -/
def generate_tool_summary (name : String) (input : Option Json) : String :=
  let fieldOf : Option String :=
    if name = "Read" ∨ name = "Edit" ∨ name = "Write" then some "file_path"
    else if name = "Bash" then some "command"
    else if name = "Glob" ∨ name = "Grep" then some "pattern"
    else if name = "Task" ∨ name = "TaskCreate" then some "description"
    else if name = "WebSearch" then some "query"
    else if name = "WebFetch" then some "url"
    else none
  match fieldOf with
  | none => name
  | some f =>
    match (input.bind (fun v => v.get f)).bind Json.asStr with
    | some s => name ++ ": " ++ s
    | none => name

/-- claude_parser::convert_block.  An ok none result is a dropped block;
an error is a panic escaping from generate_result_summary. -/
def convert_block (block : RawBlock) : Except String (Option ContentBlock) :=
  match block.block_type with
  | "text" =>
    let text := block.text.getD ""
    if text = "" then .ok none else .ok (some (.text text))
  | "tool_use" =>
    let name := block.name.getD ""
    let summary := generate_tool_summary name block.input
    .ok (some (.toolCall name summary block.input))
  | "tool_result" =>
    let contentStr := block.content.map fun c =>
      match c with
      | .text s => s
      | .other v => v.toStringCompact
    match orPanic (generate_result_summary contentStr) with
    | .error e => .error e
    | .ok summary =>
      .ok (some (.toolResult (block.tool_use_id.getD "") summary contentStr))
  | _ => .ok none

/-- The filter_map over convert_block inside convert_content. -/
def convert_blocks : List RawBlock → Except String (List ContentBlock)
  | [] => .ok []
  | b :: rest => do
    let ob ← convert_block b
    let tail ← convert_blocks rest
    match ob with
    | none => .ok tail
    | some cb => .ok (cb :: tail)

/-- claude_parser::convert_content. -/
def convert_content : RawContent → Except String (List ContentBlock)
  | .text s => if s = "" then .ok [] else .ok [.text s]
  | .blocks bs => convert_blocks bs

/-- claude_parser::parse_line on an already-lexed line: none stands for a
blank line or malformed JSON, both of which Rust drops, and the Except
layer records the panic that generate_result_summary can raise. -/
def parse_line (line : Option Json) : Except String (Option ChatMessage) :=
  match line with
  | none => .ok none
  | some j =>
    match deserRawLine j with
    | none => .ok none
    | some raw =>
      if raw.line_type ≠ "user" ∧ raw.line_type ≠ "assistant" then .ok none
      else
        match raw.message with
        | none => .ok none
        | some msg => do
          let blocks ← convert_content msg.content
          if blocks.isEmpty then .ok none
          else .ok (some ⟨msg.role, raw.timestamp, blocks⟩)

end ClaudeLog

/-!
## Codex dialect (src/backend-rust/src/chat_log/codex_parser.rs)
-/

namespace CodexLog

structure RawFileChange where
  path : String
  kind : Option String
deriving Repr

structure RawItem where
  item_type : String
  text : Option String
  command : Option String
  aggregated_output : Option String
  changes : Option (List RawFileChange)
  server : Option String
  tool : Option String
deriving Repr

structure RawEvent where
  event_type : String
  item : Option RawItem
deriving Repr

def deserRawFileChange (j : Json) : Option RawFileChange := do
  let p ← reqStrField j "path"
  let k ← optStrField j "kind"
  pure ⟨p, k⟩

/-- Option Vec of RawFileChange field. -/
def optChangesField (j : Json) (key : String) :
    Option (Option (List RawFileChange)) :=
  match j.get key with
  | none => some none
  | some .null => some none
  | some (.arr xs) => (xs.mapM deserRawFileChange).map some
  | some _ => none

def deserRawItem (j : Json) : Option RawItem := do
  let it ← reqStrField j "type"
  let tx ← optStrField j "text"
  let cmd ← optStrField j "command"
  let agg ← optStrField j "aggregated_output"
  let chs ← optChangesField j "changes"
  let srv ← optStrField j "server"
  let tl ← optStrField j "tool"
  pure ⟨it, tx, cmd, agg, chs, srv, tl⟩

def deserRawEvent (j : Json) : Option RawEvent := do
  let et ← reqStrField j "type"
  let item ←
    match j.get "item" with
    | none => some none
    | some .null => some none
    | some ij => (deserRawItem ij).map some
  pure ⟨et, item⟩

/-- codex_parser::convert_agent_message. -/
def convert_agent_message (item : RawItem) : Option (List ContentBlock) :=
  if item.text.getD "" = "" then none else some [.text (item.text.getD "")]

/-- codex_parser::convert_command_execution.  Errors are panics escaping
from truncate or summarize_output. -/
def convert_command_execution (item : RawItem) :
    Except String (Option (List ContentBlock)) :=
  let command := item.command.getD ""
  if command = "" then .ok none
  else do
    let summary ← orPanic (truncate command 120)
    let head : ContentBlock :=
      .toolCall "Bash" summary (some (.obj [("command", .str command)]))
    match item.aggregated_output with
    | some output =>
      if output ≠ "" then do
        let osum ← orPanic (summarize_output output)
        .ok (some [head, .toolResult "Bash" osum (some output)])
      else .ok (some [head])
    | none => .ok (some [head])

/-- codex_parser::convert_file_change. -/
def convert_file_change (item : RawItem) : Option (List ContentBlock) :=
  match item.changes.getD [] with
  | [] => none
  | [c] => some [.toolCall "Edit" c.path none]
  | cs => some [.toolCall "Edit" (toString cs.length ++ " files") none]

/-- codex_parser::convert_mcp_tool_call. -/
def convert_mcp_tool_call (item : RawItem) :
    Except String (Option (List ContentBlock)) := do
  let summary ← orPanic
    (truncate (item.server.getD "unknown" ++ "/" ++ item.tool.getD "unknown") 120)
  .ok (some [.toolCall "MCP" summary none])

/-- codex_parser::convert_item. -/
def convert_item (item : RawItem) : Except String (Option (List ContentBlock)) :=
  match item.item_type with
  | "agent_message" => .ok (convert_agent_message item)
  | "command_execution" => convert_command_execution item
  | "file_change" => .ok (convert_file_change item)
  | "mcp_tool_call" => convert_mcp_tool_call item
  | _ => .ok none

/-- codex_parser::parse_line on an already-lexed line, in the same style as
the Claude parser model. -/
def parse_line (line : Option Json) : Except String (Option ChatMessage) :=
  match line with
  | none => .ok none
  | some j =>
    match deserRawEvent j with
    | none => .ok none
    | some ev =>
      if ev.event_type ≠ "item.completed" then .ok none
      else
        match ev.item with
        | none => .ok none
        | some item => do
          let obs ← convert_item item
          match obs with
          | none => .ok none
          | some blocks => .ok (some ⟨"assistant", none, blocks⟩)

end CodexLog

/-!
## Log tailer read bursts (src/backend-rust/src/chat_log/watcher.rs)

read_new_lines opens the file, seeks to the saved offset, repeatedly calls
BufRead::read_line until it returns 0, parses every returned chunk, and
stores stream_position back into the offset.  The file is modelled as its
byte contents and the offset as a byte index; the dialect dispatch of
watcher::parse_line is a parameter, so the chunking and offset arithmetic
can be studied for any line parser.
-/

/-- The successive buffers produced by read_line from a byte position: each
chunk runs up to and including an LF, and a final chunk without LF is
returned as well when the data ends without one (read_line stops at EOF). -/
def lineChunksAux : List Byte → List Byte → List (List Byte)
  | [], acc => if acc = [] then [] else [acc.reverse]
  | b :: rest, acc =>
    if b = 10 then (acc.reverse ++ [10]) :: lineChunksAux rest []
    else lineChunksAux rest (b :: acc)

def lineChunks (bs : List Byte) : List (List Byte) := lineChunksAux bs []

/-- watcher::read_new_lines: returns the parsed messages of every chunk
read_line produced, and the new saved offset, which the Rust code sets to
stream_position, the end of the data read. -/
def read_new_lines (p : List Byte → Option α) (file : List Byte) (pos : Nat) :
    List α × Nat :=
  let tail := file.drop pos
  ((lineChunks tail).filterMap p, pos + tail.length)

/-- Modelled from the spec: the offset just past the last newline at or
after pos, i.e. where the spec says a read burst must leave the saved
offset when the data ends in a partial line. -/
def lastNewlineEnd (file : List Byte) (pos : Nat) : Nat :=
  let tail := file.drop pos
  let idxs := (List.range tail.length).filter fun i => tail.getD i 0 = 10
  match idxs.reverse with
  | [] => pos
  | i :: _ => pos + i + 1

/-!
## Process-tree walk and dialect detection
(src/backend-rust/src/chat_log/watcher.rs)

The process-info pseudo-filesystem is modelled as data: a table of
(pid, ppid) pairs in /proc iteration order, and a partial map from pid to
the short executable name read from the comm file.  get_descendant_pids
drives a work list with Vec::push and Vec::pop; since Vec::pop removes the
most recently pushed element, the work list is a LIFO stack, modelled with
the head of a list as the top.  The Rust loop has no termination guard, so
the model takes a fuel bound and returns none when the fuel runs out; any
run that terminates in Rust is reproduced by a large enough fuel.
-/

abbrev ProcTable := List (Nat × Nat)

/-- watcher::direct_children: the pids whose stat ppid field equals the
argument, in /proc iteration order. -/
def direct_children (tbl : ProcTable) (ppid : Nat) : List Nat :=
  tbl.filterMap fun e => if e.2 = ppid then some e.1 else none

/-- The while-let loop of get_descendant_pids: pop a pid, append its
children to the result, push them on the stack. -/
def descLoop (tbl : ProcTable) : Nat → List Nat → List Nat → Option (List Nat)
  | _, res, [] => some res
  | 0, _, _ :: _ => none
  | fuel + 1, res, p :: stk =>
    descLoop tbl fuel (res ++ direct_children tbl p)
      ((direct_children tbl p).reverse ++ stk)

/-- watcher::get_descendant_pids: the root pid followed by every pid found
by the stack walk, in discovery order. -/
def get_descendant_pids (tbl : ProcTable) (parent_pid : Nat) (fuel : Nat) :
    Option (List Nat) :=
  descLoop tbl fuel [parent_pid] [parent_pid]

/-- The first-match scan of detect_log_file over a candidate list: a pid
with no readable comm name is skipped, the first name equal to claude or
codex decides the dialect, and no match at all is the NoAiToolFound error
(modelled as none). -/
inductive AiTool where
  | claude
  | codex
deriving Repr, DecidableEq

/-- The per-pid step of the scan: read the comm name (none when the file
is unreadable, which the loop skips), claude wins, then codex, else no
match at this pid. -/
def aiNameOf (names : List (Nat × String)) (pid : Nat) : Option AiTool :=
  match names.lookup pid with
  | some n => if n = "claude" then some .claude
              else if n = "codex" then some .codex
              else none
  | none => none

def firstAiMatch (names : List (Nat × String)) : List Nat → Option AiTool
  | [] => none
  | pid :: rest =>
    match aiNameOf names pid with
    | some t => some t
    | none => firstAiMatch names rest

/-- watcher::detect_log_file, restricted to the dialect decision: the log
path computed afterwards only depends on the filesystem, not on the choice
logic the claim is about. -/
def detect_log_file (tbl : ProcTable) (names : List (Nat × String))
    (pane_pid : Nat) (fuel : Nat) : Option AiTool :=
  (get_descendant_pids tbl pane_pid fuel).bind (firstAiMatch names)

/-- Modelled from the spec: a breadth-first walk of the same table, the
traversal order the spec ascribes to detect_log_file, for comparison with
the stack walk the code performs. -/
def bfsLoop (tbl : ProcTable) : Nat → List Nat → List Nat → Option (List Nat)
  | _, res, [] => some res
  | 0, _, _ :: _ => none
  | fuel + 1, res, p :: queue =>
    bfsLoop tbl fuel (res ++ direct_children tbl p)
      (queue ++ direct_children tbl p)

/-- Modelled from the spec: descendant enumeration in breadth-first order. -/
def bfs_descendant_pids (tbl : ProcTable) (parent_pid : Nat) (fuel : Nat) :
    Option (List Nat) :=
  bfsLoop tbl fuel [parent_pid] [parent_pid]

/-- Modelled from the spec: detect_log_file as the spec describes it, with
the breadth-first enumeration feeding the same first-match scan. -/
def detect_log_file_bfs (tbl : ProcTable) (names : List (Nat × String))
    (pane_pid : Nat) (fuel : Nat) : Option AiTool :=
  (bfs_descendant_pids tbl pane_pid fuel).bind (firstAiMatch names)

/-!
The traversal order the stack walk actually produces, written as a
recursive specification: a visited pid contributes its direct children
in /proc order, and then the subtrees of those children are expanded in
reverse discovery order, most recently discovered first.  visitO carries
a recursion-depth fuel and is monotone in it, so it gives a fixed meaning
to every run of the loop that terminates.
-/

mutual

/-- The pids the stack walk emits strictly below one pid: its children in
order, then the subtree listings of the children, last child first. -/
def visitO (tbl : ProcTable) : Nat → Nat → Option (List Nat)
  | 0, _ => none
  | fuel + 1, p =>
    match seqVisit tbl fuel (direct_children tbl p).reverse with
    | none => none
    | some vs => some (direct_children tbl p ++ vs)
termination_by fuel _ => (fuel, 0)

/-- Concatenation of visitO over a list of pids. -/
def seqVisit (tbl : ProcTable) : Nat → List Nat → Option (List Nat)
  | _, [] => some []
  | fuel, p :: ps =>
    match visitO tbl fuel p, seqVisit tbl fuel ps with
    | some v, some w => some (v ++ w)
    | _, _ => none
termination_by fuel l => (fuel, l.length + 1)

end

/-!
## UnwatchChatLog (src/backend-rust/src/websocket/mod.rs, handle_message)

The per-client state the arm can touch: the chat-log tailer task handle
(an Arc Mutex Option JoinHandle, modelled as an optional task identifier)
plus the rest of the client state, which the arm never reads.  The handler
locks the handle, takes it, and aborts it when present; it enqueues no
outbound message.  The result records the updated state, the list of
messages enqueued by the arm, and the handles aborted by the arm.
-/

structure ClientState where
  client_id : Nat
  chat_log_handle : Option Nat
  pty_session : Option Nat
  current_session : Option String
  outbound : List String
deriving Repr, DecidableEq

/-- The UnwatchChatLog arm of websocket::handle_message. -/
def handleUnwatchChatLog (st : ClientState) : ClientState × List String × List Nat :=
  match st.chat_log_handle with
  | none => (st, [], [])
  | some h => ({ st with chat_log_handle := none }, [], [h])

/-!
## Claim theorems
-/

/-- Concrete process table for the traversal-order results: pid 1 has the
children 2 and 3, pid 2 has the child 4 and pid 3 has the child 5. -/
def exTbl : ProcTable := [(2, 1), (3, 1), (4, 2), (5, 3)]

/-- Executable names for exTbl: the deeper tool under the first child is
claude, the one under the second child is codex. -/
def exNames : List (Nat × String) := [(4, "claude"), (5, "codex")]

/-- The 121-byte string whose byte 120 is not a character boundary: the
letter a followed by sixty two-byte characters. -/
def midCharInput : String := "a" ++ String.mk (List.replicate 60 'é')

/-- C1: the claim says a valid UTF-8 string fed to a fresh decoder in any
chunk partition is reproduced exactly with an empty carryover afterwards.
The code fails on the euro sign fed one byte at a time: the first byte of
the three-byte character is lost when the second arrives (the phase that
prepends the carryover leaves it in place on a zero-length valid prefix,
and the main phase then overwrites it with the new byte alone), so the
decoder outputs nothing and ends with the last continuation byte as
carryover instead of the encoded string with an empty carryover. -/
theorem C1_split_char_lost :
    utf8Encode "€" = [226, 130, 172] ∧
    utf8Valid [226, 130, 172] = true ∧
    decodeChunks [] [[226], [130], [172]] = ([], [172]) ∧
    (([], [172]) : List Byte × List Byte) ≠ (utf8Encode "€", []) := by
  decide

/-- C5: the claim says the carryover after any decode_chunk call holds at
most 4 bytes and is always a valid prefix of an unfinished code unit,
with other invalid bytes dropped rather than retained.  Feeding a fresh
decoder one chunk holding an invalid 0xFF byte followed by four bytes of
plain valid ASCII leaves all five bytes in the carryover: five bytes, not
a valid incomplete prefix, the invalid byte retained rather than dropped,
and the trailing valid text withheld from the output. -/
theorem C5_carryover_unbounded :
    decodeChunk [] [255, 97, 98, 99, 100] = ([], 5, [255, 97, 98, 99, 100]) ∧
    4 < ([255, 97, 98, 99, 100] : List Byte).length ∧
    isIncompleteHead [255, 97, 98, 99, 100] = false ∧
    utf8Valid [97, 98, 99, 100] = true := by
  decide

/-- C2: the claim says a read burst parses only newline-terminated lines,
leaves a partial trailing line unparsed and advances the saved offset only
past the last newline consumed.  On a file holding one complete line
(x LF) followed by the partial line ab, the code hands both chunks to the
line parser, including the unterminated one, and stores offset 4 (the end
of file) instead of offset 2 (just past the last newline), so the partial
line can never be re-read once its newline arrives. -/
theorem C2_partial_line_parsed :
    read_new_lines some [120, 10, 97, 98] 0 = ([[120, 10], [97, 98]], 4) ∧
    lastNewlineEnd [120, 10, 97, 98] 0 = 2 ∧
    10 ∉ ([97, 98] : List Byte) ∧
    (4 : Nat) ≠ 2 := by
  decide

/-- C4: the claim says the 120-code-unit truncation used by both parsers is
total and never panics on multi-byte input.  On the 121-byte string whose
byte 120 falls inside a two-byte character, the Rust byte slice s[..120]
panics, modelled here by truncate and the single-line branch of
generate_result_summary returning none. -/
theorem C4_truncate_panics :
    byteLen midCharInput = 121 ∧
    linesCount midCharInput = 1 ∧
    truncate midCharInput 120 = none ∧
    generate_result_summary (some midCharInput) = none := by
  decide

/-- C6 counterexample: the claim says a content with n greater than 1
LF-separated segments is summarised as n lines.  The content a LF has two
LF-separated segments, but Rust lines() does not count the empty segment
after the trailing LF, so both summarisers return the content itself
rather than 2 lines. -/
theorem C6_trailing_lf_not_counted :
    lfSegments "a\n" = 2 ∧
    generate_result_summary (some "a\n") = some "a\n" ∧
    summarize_output "a\n" = some "a\n" ∧
    some "a\n" ≠ some ("2" ++ " lines") := by
  decide

/-- C7 counterexample: the claim says the summary is name colon value
exactly when the table field is found in the input, and the bare name only
when the tool is unlisted or the field is missing.  An input whose command
field is present but holds a number, not a string, is a third case: the
field is found, yet generate_tool_summary returns the bare name. -/
theorem C7_nonstring_field_gives_bare_name :
    (Json.obj [("command", Json.num 3)]).get "command" = some (Json.num 3) ∧
    ClaudeLog.generate_tool_summary "Bash" (some (Json.obj [("command", Json.num 3)])) =
      "Bash" ∧
    ("Bash" : String) ≠ "Bash: 3" :=
  ⟨rfl, rfl, by decide⟩

/-- C8 counterexample: the claim says descendants are enumerated breadth
first and the first claude or codex in that order wins.  On exTbl the
breadth-first order is 1 2 3 4 5, whose first tool is claude (pid 4), but
the code uses Vec::pop, a LIFO stack, so it enumerates 1 2 3 5 4 and
detects codex (pid 5): the dialect choice differs from the claimed one. -/
theorem C8_not_breadth_first :
    bfs_descendant_pids exTbl 1 16 = some [1, 2, 3, 4, 5] ∧
    get_descendant_pids exTbl 1 16 = some [1, 2, 3, 5, 4] ∧
    detect_log_file_bfs exTbl exNames 1 16 = some .claude ∧
    detect_log_file exTbl exNames 1 16 = some .codex ∧
    some AiTool.codex ≠ some AiTool.claude := by
  decide

/-- C9: handling UnwatchChatLog with no active tailer task changes nothing
and enqueues nothing, and with a tailer present it takes the handle (the
state keeps every other field) and aborts exactly that task. -/
theorem C9_unwatch_chat_log :
    ∀ st : ClientState,
      (st.chat_log_handle = none → handleUnwatchChatLog st = (st, [], [])) ∧
      (∀ h, st.chat_log_handle = some h →
        handleUnwatchChatLog st = ({ st with chat_log_handle := none }, [], [h])) := by
  intro st
  constructor
  · intro h0
    simp [handleUnwatchChatLog, h0]
  · intro h hh
    simp [handleUnwatchChatLog, hh]

/-- Closed instance of C9: a client with no tailer is untouched by the
handler, and one with tailer 5 has exactly that handle taken and aborted. -/
theorem C9_unwatch_chat_log_witness :
    handleUnwatchChatLog ⟨1, none, some 2, some "dev", ["m"]⟩ =
      (⟨1, none, some 2, some "dev", ["m"]⟩, [], []) ∧
    handleUnwatchChatLog ⟨1, some 5, some 2, some "dev", ["m"]⟩ =
      (⟨1, none, some 2, some "dev", ["m"]⟩, [], [5]) :=
  ⟨(C9_unwatch_chat_log ⟨1, none, some 2, some "dev", ["m"]⟩).1 rfl,
   (C9_unwatch_chat_log ⟨1, some 5, some 2, some "dev", ["m"]⟩).2 5 rfl⟩

/-- JSON line of a completed mcp_tool_call item whose server and tool
fields are present exactly when the corresponding argument is some. -/
def mcpLineJson (server tool : Option String) : Json :=
  .obj [("type", .str "item.completed"),
        ("item", .obj ([("type", Json.str "mcp_tool_call")] ++
          (match server with
           | some s => [("server", Json.str s)]
           | none => []) ++
          (match tool with
           | some t => [("tool", Json.str t)]
           | none => [])))]

/-- The raw item the serde layer produces for mcpLineJson. -/
def mcpItem (server tool : Option String) : CodexLog.RawItem :=
  ⟨"mcp_tool_call", none, none, none, none, server, tool⟩

/-- C10: every completed mcp_tool_call line yields a message whose single
block is the MCP tool call with summary truncate(server/tool, 120), each
absent field replaced by the string unknown — in particular a line with
neither field yields the summary unknown/unknown rather than being
dropped. -/
theorem C10_mcp_missing_fields_default_unknown :
    (∀ server tool : Option String,
      CodexLog.parse_line (some (mcpLineJson server tool)) =
        (orPanic (truncate (server.getD "unknown" ++ "/" ++ tool.getD "unknown") 120)).map
          (fun summary => some ⟨"assistant", none, [.toolCall "MCP" summary none]⟩)) ∧
    CodexLog.parse_line (some (mcpLineJson none none)) =
      .ok (some ⟨"assistant", none, [.toolCall "MCP" "unknown/unknown" none]⟩) := by
  have main : ∀ server tool : Option String,
      CodexLog.parse_line (some (mcpLineJson server tool)) =
        (orPanic (truncate (server.getD "unknown" ++ "/" ++ tool.getD "unknown") 120)).map
          (fun summary => some ⟨"assistant", none, [.toolCall "MCP" summary none]⟩) := by
    intro server tool
    have hd : CodexLog.deserRawEvent (mcpLineJson server tool) =
        some ⟨"item.completed", some (mcpItem server tool)⟩ := by
      cases server <;> cases tool <;> rfl
    simp only [CodexLog.parse_line, hd, CodexLog.convert_item, mcpItem,
      CodexLog.convert_mcp_tool_call]
    cases horp : orPanic
        (truncate (server.getD "unknown" ++ "/" ++ tool.getD "unknown") 120) <;>
      simp [horp, Except.map, bind, Except.bind]
  refine ⟨main, ?_⟩
  rw [main none none]
  have ht : truncate ("unknown/unknown") 120 = some "unknown/unknown" := by decide
  simp [Option.getD, ht, orPanic, Except.map]

/-- A list known to equal a cons cell is not nil. -/
lemma ne_nil_of_cons_eq {α} {bs l : List α} {a : α} (h : a :: l = bs) : bs ≠ [] := by
  rw [← h]
  simp

/-- Every ok-some result of the Codex item converter carries at least one
block: each converter either drops the item or emits a nonempty list. -/
lemma codex_item_blocks_ne_nil (item : CodexLog.RawItem) (bs : List ContentBlock)
    (h : CodexLog.convert_item item = .ok (some bs)) : bs ≠ [] := by
  unfold CodexLog.convert_item at h
  split at h
  · -- agent_message
    unfold CodexLog.convert_agent_message at h
    split at h
    · simp_all
    · try simp only [Except.ok.injEq, Option.some.injEq] at h
      exact ne_nil_of_cons_eq h
  · -- command_execution
    unfold CodexLog.convert_command_execution at h
    rcases hagg : item.aggregated_output with _ | out <;> simp only [hagg] at h
    · split at h
      · simp_all
      · cases h1 : orPanic (truncate (item.command.getD "") 120) with
        | error e => rw [h1] at h; simp [bind, Except.bind] at h
        | ok summary =>
          rw [h1] at h
          simp only [bind, Except.bind, Except.ok.injEq, Option.some.injEq] at h
          exact ne_nil_of_cons_eq h
    · split at h
      · simp_all
      · cases h1 : orPanic (truncate (item.command.getD "") 120) with
        | error e => rw [h1] at h; simp [bind, Except.bind] at h
        | ok summary =>
          rw [h1] at h
          simp only [bind, Except.bind] at h
          split at h
          · cases h2 : orPanic (summarize_output out) with
            | error e => rw [h2] at h; simp [bind, Except.bind] at h
            | ok osum =>
              rw [h2] at h
              simp only [bind, Except.bind, Except.ok.injEq, Option.some.injEq] at h
              exact ne_nil_of_cons_eq h
          · try simp only [Except.ok.injEq, Option.some.injEq] at h
            exact ne_nil_of_cons_eq h
  · -- file_change
    unfold CodexLog.convert_file_change at h
    split at h
    · simp_all
    · try simp only [Except.ok.injEq, Option.some.injEq] at h
      exact ne_nil_of_cons_eq h
    · try simp only [Except.ok.injEq, Option.some.injEq] at h
      exact ne_nil_of_cons_eq h
  · -- mcp_tool_call
    unfold CodexLog.convert_mcp_tool_call at h
    cases h1 : orPanic (truncate (item.server.getD "unknown" ++ "/" ++
        item.tool.getD "unknown") 120) with
    | error e => rw [h1] at h; simp [bind, Except.bind] at h
    | ok summary =>
      rw [h1] at h
      simp only [bind, Except.bind, Except.ok.injEq, Option.some.injEq] at h
      exact ne_nil_of_cons_eq h
  · simp_all

/-- C3: for both dialect parsers, a returned message never has an empty
blocks list: a line whose converted block list would be empty is dropped
by the parser instead. -/
theorem C3_blocks_nonempty :
    (∀ (line : Option Json) (m : ChatMessage),
        ClaudeLog.parse_line line = .ok (some m) → m.blocks ≠ []) ∧
    (∀ (line : Option Json) (m : ChatMessage),
        CodexLog.parse_line line = .ok (some m) → m.blocks ≠ []) := by
  constructor
  · intro line m h
    cases line with
    | none => simp [ClaudeLog.parse_line] at h
    | some j =>
      simp only [ClaudeLog.parse_line] at h
      cases hd : ClaudeLog.deserRawLine j with
      | none => simp_all
      | some raw =>
        simp only [hd] at h
        split at h
        · simp_all
        · cases hm : raw.message with
          | none => simp_all
          | some msg =>
            simp only [hm] at h
            cases hc : ClaudeLog.convert_content msg.content with
            | error e => rw [hc] at h; simp [bind, Except.bind] at h
            | ok blocks =>
              rw [hc] at h
              simp only [bind, Except.bind] at h
              split at h
              · simp_all
              · rename_i hne
                simp only [Except.ok.injEq, Option.some.injEq] at h
                subst h
                cases blocks with
                | nil => simp at hne
                | cons a l => simp
  · intro line m h
    cases line with
    | none => simp [CodexLog.parse_line] at h
    | some j =>
      simp only [CodexLog.parse_line] at h
      cases hd : CodexLog.deserRawEvent j with
      | none => simp_all
      | some ev =>
        simp only [hd] at h
        split at h
        · simp_all
        · cases hi : ev.item with
          | none => simp_all
          | some item =>
            simp only [hi] at h
            cases hc : CodexLog.convert_item item with
            | error e => rw [hc] at h; simp [bind, Except.bind] at h
            | ok obs =>
              rw [hc] at h
              simp only [bind, Except.bind] at h
              cases obs with
              | none => simp_all
              | some blocks =>
                simp only [Except.ok.injEq, Option.some.injEq] at h
                subst h
                exact codex_item_blocks_ne_nil item blocks hc

/-- Closed instance of C3: the message parsed from a simple user line has a
nonempty block list. -/
theorem C3_blocks_nonempty_witness :
    ({ role := "user", timestamp := none, blocks := [.text "hi"] } : ChatMessage).blocks ≠
      [] :=
  C3_blocks_nonempty.1
    (some (.obj [("type", .str "user"),
      ("message", .obj [("role", .str "user"), ("content", .str "hi")])]))
    { role := "user", timestamp := none, blocks := [.text "hi"] } rfl

/-- The Rust lines().count() value expressed over the spec vocabulary of
LF-separated segments: every LF closes a line, and a final segment without
a terminator still counts, so a trailing LF contributes no extra line. -/
lemma rustLinesCount_eq (cs : List Char) :
    rustLinesCount cs =
      (if cs = [] then 0
       else if cs.getLast? = some (Char.ofNat 10) then cs.count (Char.ofNat 10)
       else cs.count (Char.ofNat 10) + 1) := by
  induction cs with
  | nil => simp [rustLinesCount]
  | cons c rest ih =>
    cases rest with
    | nil =>
      by_cases hc : c = Char.ofNat 10 <;>
        simp [rustLinesCount, hc, List.count_cons, List.count_nil]
    | cons c2 rest2 =>
      have hstep : rustLinesCount (c :: c2 :: rest2) =
          (if c = Char.ofNat 10 then 1 else 0) + rustLinesCount (c2 :: rest2) := rfl
      rw [hstep, ih]
      by_cases hc : c = Char.ofNat 10 <;>
        by_cases hl : (c2 :: rest2).getLast? = some (Char.ofNat 10) <;>
          simp [hc, hl, List.count_cons, List.getLast?_cons_cons] <;> omega

/-- C6 (amended): both result summarisers agree with the claimed rule once
lines are counted the way Rust lines() counts them — a final empty segment
opened by a trailing LF is not a line — and once the over-120-byte branch
is read as the fallible byte slice it is: content absent gives (empty),
more than one line gives the line count, a single line of at most 120
bytes is returned verbatim, and a longer single line is cut at byte 120
with an ellipsis when that index is a character boundary (and panics
otherwise, the C4 defect). -/
theorem C6_result_summary_characterization :
    generate_result_summary none = some "(empty)" ∧
    ∀ text : String,
      (linesCount text =
        (if text.data = [] then 0
         else if text.data.getLast? = some (Char.ofNat 10) then
           text.data.count (Char.ofNat 10)
         else text.data.count (Char.ofNat 10) + 1)) ∧
      (1 < linesCount text →
        generate_result_summary (some text) =
          some (toString (linesCount text) ++ " lines") ∧
        summarize_output text = some (toString (linesCount text) ++ " lines")) ∧
      (linesCount text ≤ 1 → byteLen text ≤ 120 →
        generate_result_summary (some text) = some text ∧
        summarize_output text = some text) ∧
      (∀ pre, linesCount text ≤ 1 → 120 < byteLen text →
        takeBytes text.data 120 = some pre →
        generate_result_summary (some text) = some (String.mk pre ++ "...") ∧
        summarize_output text = some (String.mk pre ++ "...")) ∧
      (linesCount text ≤ 1 → 120 < byteLen text → takeBytes text.data 120 = none →
        generate_result_summary (some text) = none ∧ summarize_output text = none) := by
  refine ⟨rfl, fun text => ⟨rustLinesCount_eq text.data, ?_, ?_, ?_, ?_⟩⟩
  · intro hgt
    constructor <;> simp [generate_result_summary, summarize_output, hgt]
  · intro hle hby
    have hnot : ¬ linesCount text > 1 := by omega
    have hnotby : ¬ byteLen text > 120 := by omega
    constructor <;>
      simp [generate_result_summary, summarize_output, truncate, hnot, hnotby, hby]
  · intro pre hle hby hpre
    have hnot : ¬ linesCount text > 1 := by omega
    have hnotby : ¬ byteLen text ≤ 120 := by omega
    constructor <;>
      simp [generate_result_summary, summarize_output, truncate, hnot, hnotby, hby, hpre]
  · intro hle hby hpre
    have hnot : ¬ linesCount text > 1 := by omega
    have hnotby : ¬ byteLen text ≤ 120 := by omega
    constructor <;>
      simp [generate_result_summary, summarize_output, truncate, hnot, hnotby, hby, hpre]

/-- Closed instance of C6: a two-line content is summarised by its Rust
line count. -/
theorem C6_result_summary_witness :
    generate_result_summary (some "x\ny") =
      some (toString (linesCount "x\ny") ++ " lines") ∧
    summarize_output "x\ny" = some (toString (linesCount "x\ny") ++ " lines") :=
  ((C6_result_summary_characterization.2 "x\ny").2.1 (by decide))

/-- Modelled from the spec: the tool-summary table of section 4.2, as data. -/
def specToolTable : List (List String × String) :=
  [(["Read", "Edit", "Write"], "file_path"),
   (["Bash"], "command"),
   (["Glob", "Grep"], "pattern"),
   (["Task", "TaskCreate"], "description"),
   (["WebSearch"], "query"),
   (["WebFetch"], "url")]

/-- Modelled from the spec: the field the table designates for a tool name,
none when the tool is not in the table. -/
def specToolField (name : String) : Option String :=
  (specToolTable.find? (fun e => decide (name ∈ e.1))).map (·.2)

/-- C7 (amended): generate_tool_summary returns name colon value exactly
when the spec table designates a field for the tool and that field is
present in the input with a string value; in every other case — tool not
in the table, field missing, or field present with a non-string value —
it returns the tool name alone. -/
theorem C7_tool_summary_characterization :
    ∀ (name : String) (input : Option Json),
      ClaudeLog.generate_tool_summary name input =
        (match specToolField name with
         | none => name
         | some f =>
           match (input.bind (fun v => v.get f)).bind Json.asStr with
           | some v => name ++ ": " ++ v
           | none => name) := by
  intro name input
  by_cases h1 : name = "Read"
  · subst h1; rfl
  by_cases h2 : name = "Edit"
  · subst h2; rfl
  by_cases h3 : name = "Write"
  · subst h3; rfl
  by_cases h4 : name = "Bash"
  · subst h4; rfl
  by_cases h5 : name = "Glob"
  · subst h5; rfl
  by_cases h6 : name = "Grep"
  · subst h6; rfl
  by_cases h7 : name = "Task"
  · subst h7; rfl
  by_cases h8 : name = "TaskCreate"
  · subst h8; rfl
  by_cases h9 : name = "WebSearch"
  · subst h9; rfl
  by_cases h10 : name = "WebFetch"
  · subst h10; rfl
  simp [ClaudeLog.generate_tool_summary, specToolField, specToolTable, List.find?,
    h1, h2, h3, h4, h5, h6, h7, h8, h9, h10]

/-- Fuel monotonicity for the stack-order visit specification: a visit
that completes within some recursion depth yields the same listing at any
greater depth. -/
lemma visit_mono (tbl : ProcTable) :
    ∀ fuel,
      (∀ p v, visitO tbl fuel p = some v → visitO tbl (fuel + 1) p = some v) ∧
      (∀ l v, seqVisit tbl fuel l = some v → seqVisit tbl (fuel + 1) l = some v) := by
  intro fuel
  induction fuel with
  | zero =>
    constructor
    · intro p v h
      simp [visitO] at h
    · intro l v h
      cases l with
      | nil => simpa [seqVisit] using h
      | cons p ps => simp [seqVisit, visitO] at h
  | succ g ih =>
    have hA : ∀ p v, visitO tbl (g + 1) p = some v → visitO tbl (g + 2) p = some v := by
      intro p v h
      unfold visitO at h ⊢
      cases hs : seqVisit tbl g (direct_children tbl p).reverse with
      | none => rw [hs] at h; simp at h
      | some vs =>
        rw [hs] at h
        rw [ih.2 _ _ hs]
        exact h
    refine ⟨hA, ?_⟩
    intro l
    induction l with
    | nil => intro v h; simpa [seqVisit] using h
    | cons p ps ihl =>
      intro v h
      unfold seqVisit at h ⊢
      cases hv : visitO tbl (g + 1) p with
      | none => rw [hv] at h; simp at h
      | some v1 =>
        cases hs : seqVisit tbl (g + 1) ps with
        | none => rw [hv, hs] at h; simp at h
        | some w =>
          rw [hv, hs] at h
          rw [hA _ _ hv, ihl _ hs]
          exact h

/-- seqVisit distributes over list append. -/
lemma seqVisit_append (tbl : ProcTable) (f : Nat) :
    ∀ xs ys : List Nat,
      seqVisit tbl f (xs ++ ys) =
        (match seqVisit tbl f xs, seqVisit tbl f ys with
         | some a, some b => some (a ++ b)
         | _, _ => none) := by
  intro xs ys
  induction xs with
  | nil =>
    rw [List.nil_append]
    cases hy : seqVisit tbl f ys <;> simp [seqVisit]
  | cons x xs ih =>
    rw [List.cons_append, seqVisit.eq_2, seqVisit.eq_2, ih]
    cases hv : visitO tbl f x <;>
      cases ha : seqVisit tbl f xs <;>
        cases hb : seqVisit tbl f ys <;>
          simp [hv, ha, hb, List.append_assoc]

/-- The work-list loop of get_descendant_pids computes exactly the
recursive stack-order listing: whatever it returns is the starting result
extended with the visit listings of the stacked pids in stack order. -/
lemma descLoop_eq (tbl : ProcTable) :
    ∀ fuel res stk out,
      descLoop tbl fuel res stk = some out →
      ∃ vs, seqVisit tbl fuel stk = some vs ∧ out = res ++ vs := by
  intro fuel
  induction fuel with
  | zero =>
    intro res stk out h
    cases stk with
    | nil =>
      refine ⟨[], by simp [seqVisit], ?_⟩
      simp only [descLoop, Option.some.injEq] at h
      simp [← h]
    | cons p s => simp [descLoop] at h
  | succ g ih =>
    intro res stk out h
    cases stk with
    | nil =>
      refine ⟨[], by simp [seqVisit], ?_⟩
      simp only [descLoop, Option.some.injEq] at h
      simp [← h]
    | cons p stk2 =>
      have hstep : descLoop tbl (g + 1) res (p :: stk2) =
          descLoop tbl g (res ++ direct_children tbl p)
            ((direct_children tbl p).reverse ++ stk2) := rfl
      rw [hstep] at h
      obtain ⟨vs, hs, hout⟩ := ih _ _ _ h
      rw [seqVisit_append] at hs
      cases ha : seqVisit tbl g (direct_children tbl p).reverse with
      | none => rw [ha] at hs; simp at hs
      | some a =>
        rw [ha] at hs
        cases hb : seqVisit tbl g stk2 with
        | none => rw [hb] at hs; simp at hs
        | some b =>
          rw [hb] at hs
          simp only [Option.some.injEq] at hs
          refine ⟨direct_children tbl p ++ a ++ b, ?_, ?_⟩
          · have hv : visitO tbl (g + 1) p = some (direct_children tbl p ++ a) := by
              unfold visitO
              rw [ha]
            have hb2 : seqVisit tbl (g + 1) stk2 = some b :=
              (visit_mono tbl g).2 _ _ hb
            unfold seqVisit
            rw [hv, hb2]
          · rw [hout, ← hs]
            simp [List.append_assoc]

/-- The first-match scan really is first match wins: a successful scan
splits the candidate list at a pid named for the returned dialect, with
every earlier candidate matching neither name. -/
lemma firstAiMatch_spec (names : List (Nat × String)) :
    ∀ (l : List Nat) (t : AiTool),
      firstAiMatch names l = some t →
      ∃ pre pid post,
        l = pre ++ pid :: post ∧ aiNameOf names pid = some t ∧
        ∀ q ∈ pre, aiNameOf names q = none := by
  intro l
  induction l with
  | nil => intro t h; simp [firstAiMatch] at h
  | cons p rest ih =>
    intro t h
    unfold firstAiMatch at h
    cases hn : aiNameOf names p with
    | some u =>
      rw [hn] at h
      simp only [Option.some.injEq] at h
      exact ⟨[], p, rest, rfl, by rw [hn, h], by simp⟩
    | none =>
      rw [hn] at h
      obtain ⟨pre, pid, post, hl, hname, hpre⟩ := ih t h
      refine ⟨p :: pre, pid, post, by simp [hl], hname, ?_⟩
      intro q hq
      rcases List.mem_cons.mp hq with rfl | hq2
      · exact hn
      · exact hpre q hq2

/-- C8 (amended): the candidate enumeration of detect_log_file starts at
the pane pid and continues in the LIFO stack order: every returned listing
is the pane pid followed by its stack-order visit, in which the direct
children of a pid appear in /proc order before any deeper descendant and the
subtree of the most recently discovered child is expanded first.  The
dialect is the first candidate in that order whose executable name is
claude or codex: the scan splits the list at the deciding pid and every
earlier candidate matched neither name. -/
theorem C8_stack_order_first_match :
    (∀ (tbl : ProcTable) (pid fuel : Nat) (out : List Nat),
      get_descendant_pids tbl pid fuel = some out →
      ∃ v, visitO tbl fuel pid = some v ∧ out = pid :: v) ∧
    (∀ (tbl : ProcTable) (names : List (Nat × String)) (pid fuel : Nat),
      detect_log_file tbl names pid fuel =
        (get_descendant_pids tbl pid fuel).bind (firstAiMatch names)) ∧
    (∀ (names : List (Nat × String)) (l : List Nat) (t : AiTool),
      firstAiMatch names l = some t →
      ∃ pre pid post,
        l = pre ++ pid :: post ∧ aiNameOf names pid = some t ∧
        ∀ q ∈ pre, aiNameOf names q = none) := by
  refine ⟨?_, fun _ _ _ _ => rfl, fun names => firstAiMatch_spec names⟩
  intro tbl pid fuel out h
  obtain ⟨vs, hs, hout⟩ := descLoop_eq tbl fuel [pid] [pid] out h
  have h0 : seqVisit tbl fuel ([] : List Nat) = some [] := by simp [seqVisit]
  unfold seqVisit at hs
  cases hv : visitO tbl fuel pid with
  | none => rw [hv] at hs; simp at hs
  | some v =>
    rw [hv, h0] at hs
    simp only [Option.some.injEq, List.append_nil] at hs
    subst hs
    refine ⟨v, rfl, ?_⟩
    simp [hout]

/-- Closed instance of C8: the stack enumeration on exTbl is reproduced by
the recursive stack-order specification. -/
theorem C8_stack_order_witness :
    ∃ v, visitO exTbl 16 1 = some v ∧ [1, 2, 3, 5, 4] = 1 :: v :=
  C8_stack_order_first_match.1 exTbl 1 16 [1, 2, 3, 5, 4] (by decide)

end Webmux
